import Mathlib

/-!
Verification development for the big-sleep-mps repository.

The definitions below are a shallow embedding of `big_sleep/big_sleep.py`.
Python strings are modelled as `List Char`, tensors of similarity scores as
`List` over `ℚ`, real-valued softmax arithmetic over `ℝ`, and fallible
operations as `Except`.  Randomness is passed in explicitly as draw
arguments, and the externally loaded generator and CLIP models are
parameters of the embedding.
-/

namespace BigSleep

/-! ## String helpers: `create_text_path` (big_sleep.py lines 114-127)

Python single-character `str.replace` is modelled by `replaceChar`,
`str.split(sep)` by `splitOnChar`, and `str.strip(chars)` by `pyStrip`.
-/

/-- Replace every occurrence of the character `old` by the string `new`
(the Python `s.replace(old, new)` for a one-character pattern). -/
def replaceChar (old : Char) (new : List Char) : List Char → List Char
  | [] => []
  | c :: rest => (if c = old then new else [c]) ++ replaceChar old new rest

/-- Characters removed at both ends by `.strip(chars)` with chars = hyphen
and underscore. -/
def isStripChar (c : Char) : Bool := c = '-' || c = '_'

/-- Python `s.strip(chars)`: remove the strip characters from both ends. -/
def pyStrip (s : List Char) : List Char := (s.dropWhile isStripChar).rdropWhile isStripChar

/-- The replacement chain of `create_text_path`, in source order:
hyphen to underscore, comma removed, space to underscore, pipe to a double
hyphen. -/
def replace_pipeline (s : List Char) : List Char :=
  replaceChar '|' ['-', '-'] (replaceChar ' ' ['_'] (replaceChar ',' [] (replaceChar '-' ['_'] s)))

/-- The sanitizer tail of `create_text_path`:
`.replace(…)….strip(chars)[:255]`. -/
def sanitize_name (s : List Char) : List Char := (pyStrip (replace_pipeline s)).take 255

/-- Python `s.split(sep)` for a one-character separator (empty segments are
kept, and the result is always non-empty). -/
def splitOnChar (c : Char) : List Char → List (List Char)
  | [] => [[]]
  | a :: rest =>
    match splitOnChar c rest with
    | [] => [[]]
    | seg :: segs => if a = c then [] :: seg :: segs else (a :: seg) :: segs

/-- Python `"".join(segments)`. -/
def joinSegs (segs : List (List Char)) : List Char := segs.flatMap (fun s => s)

/-- The `img` argument of `create_text_path`: either a file-path string or a
PIL image object. -/
inductive ImgInput where
  | file (s : List Char)
  | pil

/-- Derivation of the image part of the name in `create_text_path`:
`"".join(img.split(".")[:-1]).split("/")[-1]`. -/
def img_base_name (s : List Char) : List Char :=
  let dropped := joinSegs ((splitOnChar '.' s).dropLast)
  ((splitOnChar '/' dropped).getLast?).getD []

/-- Source function create_text_path (big_sleep.py lines 114-127). -/
def create_text_path (text : Option (List Char)) (img : Option ImgInput)
    (encoding : Option Unit) : List Char :=
  let base := (text.getD []) ++
    (match img with
     | some (ImgInput.file s) => '_' :: img_base_name s
     | some ImgInput.pil => '_' :: "PIL_img".toList
     | none => [])
  let base := match encoding with
    | some _ => "your_encoding".toList
    | none => base
  sanitize_name base

/-! ## Prompt encoding: `Imagine.set_clip_encoding` and friends
(big_sleep.py lines 425-494)

The CLIP text and image encoders are external frozen models; they are
parameters (`textEnc`, `imgEnc`) of the embedding, together with the
element-wise average `avgEnc` used when both a text and an image are given.
-/

section ClipEncoding

variable {E : Type}

/-- Source method Imagine.create_clip_encoding (lines 432-445): a precomputed encoding
wins; otherwise text and image encodings are combined or used alone. -/
def create_clip_encoding (textEnc : List Char → E) (imgEnc : ImgInput → E) (avgEnc : E → E → E)
    (text : Option (List Char)) (img : Option ImgInput) (encoding : Option E) : Option E :=
  match encoding, text, img with
  | some e, _, _ => some e
  | none, some t, some im => some (avgEnc (textEnc t) (imgEnc im))
  | none, some t, none => some (textEnc t)
  | none, none, some im => some (imgEnc im)
  | none, none, none => none

/-- The test `text is not None and "|" in text` of `encode_multiple_phrases`. -/
def hasPipeChar (text : Option (List Char)) : Bool :=
  match text with
  | some t => t.contains '|'
  | none => false

/-- Source method Imagine.encode_multiple_phrases (lines 462-466). -/
def encode_multiple_phrases (textEnc : List Char → E) (imgEnc : ImgInput → E) (avgEnc : E → E → E)
    (text : Option (List Char)) (img : Option ImgInput) (encoding : Option E) : List (Option E) :=
  if hasPipeChar text then
    (splitOnChar '|' (text.getD [])).map
      (fun p => create_clip_encoding textEnc imgEnc avgEnc (some p) img encoding)
  else
    [create_clip_encoding textEnc imgEnc avgEnc text img encoding]

/-- Source method Imagine.encode_max_and_min (lines 468-471): returns the pair of the
max-phrase and min-phrase encoding lists (the min list is left empty when
`text_min` is empty). -/
def encode_max_and_min (textEnc : List Char → E) (imgEnc : ImgInput → E) (avgEnc : E → E → E)
    (text : Option (List Char)) (img : Option ImgInput) (encoding : Option E)
    (text_min : List Char) : List (Option E) × List (Option E) :=
  (encode_multiple_phrases textEnc imgEnc avgEnc text img encoding,
   if text_min ≠ [] then
     encode_multiple_phrases textEnc imgEnc avgEnc (some text_min) img encoding
   else [])

/-- Source property Imagine.seed_suffix (lines 425-427). -/
def seed_suffix (append_seed : Bool) (seed : Option ℤ) : List Char :=
  match append_seed, seed with
  | true, some s => '.' :: (toString s).toList
  | _, _ => []

/-- The state written by `Imagine.set_clip_encoding`. -/
structure ClipEncodingState (E : Type) where
  text : Option (List Char)
  text_min : List Char
  text_path : List Char
  filename : List Char
  encoded_max : List (Option E)
  encoded_min : List (Option E)
  current_best_score : ℚ

/-- Source method Imagine.set_clip_encoding (lines 473-494).  When `text_min` is a
non-empty string the local `text` variable is reassigned to
`text + "_wout_" + text_min[:255]` before both the filename computation and
the call to `encode_max_and_min`.  `now_str` stands for the timestamp
string used when `save_date_time` is set. -/
def set_clip_encoding (textEnc : List Char → E) (imgEnc : ImgInput → E) (avgEnc : E → E → E)
    (save_date_time : Bool) (now_str : List Char) (output_dir : Option (List Char))
    (append_seed : Bool) (seed : Option ℤ)
    (text : Option (List Char)) (img : Option ImgInput) (encoding : Option E)
    (text_min : List Char) : ClipEncodingState E :=
  let textArg : Option (List Char) :=
    if 0 < text_min.length then
      match text with
      | some t => some (t ++ "_wout_".toList ++ text_min.take 255)
      | none => some ("wout_".toList ++ text_min.take 255)
    else text
  let tp := (if save_date_time then now_str else []) ++
    create_text_path textArg img (encoding.map (fun _ => ()))
  let fname := (match output_dir with
      | some d => d ++ ['/']
      | none => "./".toList) ++ tp ++ seed_suffix append_seed seed ++ ".png".toList
  let enc := encode_max_and_min textEnc imgEnc avgEnc textArg img encoding text_min
  { text := text, text_min := text_min, text_path := tp, filename := fname,
    encoded_max := enc.1, encoded_min := enc.2, current_best_score := 0 }

end ClipEncoding

/-! ## Similarity loss and checkpoint selection
(`BigSleep.sim_txt_to_img` lines 277-281, `BigSleep.forward` lines 330-336,
`Imagine.train_step` lines 514-539)

A CLIP similarity tensor for one phrase is the list of per-cutout cosine
similarities; `torch.cosine_similarity(text, imgs, dim=-1)` broadcasts the
single text embedding over the cutout batch. -/

/-- Mean of a tensor of rationals (Python `.mean()`; the empty case is junk,
never reached for a non-empty cutout batch). -/
def tensorMean (l : List ℚ) : ℚ := l.sum / l.length

/-- Source method BigSleep.sim_txt_to_img (lines 277-281): the sign is -1
for a max phrase and +1 for a min phrase, and the per-view cosine
similarities are averaged into one scalar. -/
def sim_txt_to_img (loss_coef : ℚ) (text_type_min : Bool) (cos_sims : List ℚ) : ℚ :=
  (if text_type_min then 1 else -1) * loss_coef * tensorMean cos_sims

/-- The similarity loss assembled in BigSleep.forward (lines 330-335):
one scalar per phrase, summed.  The trailing `.mean()` of the source acts
on this 0-dimensional sum and is the identity. -/
def sim_loss (loss_coef : ℚ) (max_views min_views : List (List ℚ)) : ℚ :=
  ((max_views.map (sim_txt_to_img loss_coef false)) ++
   (min_views.map (sim_txt_to_img loss_coef true))).sum

/-- Accumulator for `torch.topk(v, k=1, largest=False)`: keeps the current
minimum value and its index, preferring the earlier index on ties. -/
def topkMin1Go (cur : ℚ × ℕ) (idx : ℕ) : List ℚ → ℚ × ℕ
  | [] => cur
  | b :: rest => topkMin1Go (if b < cur.1 then (b, idx) else cur) (idx + 1) rest

/-- `torch.topk(v, k=1, largest=False)` over a tensor modelled as a list:
the minimum value together with its index (`none` on an empty tensor,
where the source operation raises).  A 0-dimensional tensor is the
one-element list. -/
def topk_min1 (v : List ℚ) : Option (ℚ × ℕ) :=
  match v with
  | [] => none
  | a :: rest => some (topkMin1Go (a, 0) 1 rest)

/-- The checkpoint selection of Imagine.train_step (line 518):
`torch.topk(losses[2], k=1, largest=False)`.  The tensor `losses[2]` is the
0-dimensional similarity loss, viewed by topk as a single element. -/
def checkpoint_selected (loss_coef : ℚ) (max_views min_views : List (List ℚ)) : Option ℕ :=
  (topk_min1 [sim_loss loss_coef max_views min_views]).map (fun p => p.2)

/-- Follows the words of the spec, for comparison with the source: the
spec describes a vector of per-view similarity losses, one entry per
augmentation view (sign times coefficient times per-view cosine
similarity, without the mean). -/
def spec_per_view_scores (loss_coef : ℚ) (cos_sims : List ℚ) : List ℚ :=
  cos_sims.map (fun s => -loss_coef * s)

/-! ## Image saving and best-score tracking
(save_image lines 23-37, `Imagine.train_step` lines 537-568)

An attempted disk write by the external torchvision writer either succeeds
or raises; it is modelled as an `Except` value passed in.  The wrapper
`save_image` catches every exception and prints a message, so its
embedding is a total function returning the log lines. -/

/-- Source function save_image (lines 23-37): the actual write is wrapped
in try/except, an error is logged and swallowed (the DEBUG branches only
print). -/
def save_image (outcome : Except String Unit) : List String :=
  match outcome with
  | Except.ok _ => []
  | Except.error e => ["Error saving image: " ++ e]

/-- The write outcomes offered by the filesystem at one checkpoint: the
canonical file, the optional numbered progress file, the optional best
file. -/
structure CheckpointWrites where
  canonical : Except String Unit
  progress : Except String Unit
  best : Except String Unit

/-- Result of the saving section of one checkpoint. -/
structure CheckpointResult where
  newBest : ℚ
  wroteBest : Bool
  logs : List String

/-- The saving tail of Imagine.train_step (lines 537-568): the canonical
image is always (re)written, a progress file when `save_progress` is set,
and the best file exactly when `save_best` is set and the top score is
strictly below `current_best_score` (which is then updated).  Every write
goes through the catching wrapper `save_image`, so no write failure
escapes; the function is total. -/
def checkpoint_saves (save_progress save_best : Bool) (top_score current_best : ℚ)
    (w : CheckpointWrites) : CheckpointResult :=
  let logs_c := save_image w.canonical
  let logs_p := if save_progress then save_image w.progress else []
  if save_best ∧ top_score < current_best then
    { newBest := top_score, wroteBest := true,
      logs := logs_c ++ logs_p ++ save_image w.best }
  else
    { newBest := current_best, wroteBest := false, logs := logs_c ++ logs_p }

/-! ## Random cutouts (rand_cutout lines 160-177, `BigSleep.forward`
lines 292-296)

Randomness is passed in: `g` is the untruncated normal draw used for the
cutout size, the gauss offsets are the already int-truncated draws of
`int(random.gauss(...))`, and the uniform offsets are draws of
`random.randint(min_offset, max_offset)` whose inclusive-range contract is
a hypothesis of the theorems. -/

/-- Python `int(...)` on a rational: truncation toward zero. -/
def pyInt (x : ℚ) : ℤ := if 0 ≤ x then ⌊x⌋ else -⌊-x⌋

/-- Tensor `.clip(lo, hi)`. -/
def clipQ (x lo hi : ℚ) : ℚ := min (max x lo) hi

/-- The cutout-size sampling of BigSleep.forward (line 294):
`int(width * normal(mean=.8, std=.3).clip(.5, .95))`. -/
def sample_cutout_size (width : ℕ) (g : ℚ) : ℤ :=
  pyInt ((width : ℚ) * clipQ g (1/2) (19/20))

/-- The four random draws consumed by one rand_cutout call. -/
structure OffsetDraws where
  gauss_x : ℤ
  gauss_y : ℤ
  uni_x : ℤ
  uni_y : ℤ

/-- The offset computation of rand_cutout (lines 160-175).  In
center-biased mode a gauss draw is kept only when it lies inside
`[min_offset, max_offset]`, otherwise the uniform draw replaces it; in
plain mode the uniform draws are used directly. -/
def rand_cutout_offsets (width size : ℤ) (center_bias : Bool) (d : OffsetDraws) : ℤ × ℤ :=
  let min_offset : ℤ := 0
  let max_offset : ℤ := width - size
  if center_bias then
    (if max_offset < d.gauss_x ∨ d.gauss_x < min_offset then d.uni_x else d.gauss_x,
     if max_offset < d.gauss_y ∨ d.gauss_y < min_offset then d.uni_y else d.gauss_y)
  else
    (d.uni_x, d.uni_y)

/-! ## Generator adapter construction and latent initialisation
(`Model.__init__` lines 207-233, `Latents.__init__` lines 181-197)

The pretrained generator is external: `load` stands for
`BigGAN.from_pretrained` and yields the model with its configuration.
The initial parameter draws of `Latents` are passed in. -/

/-- Configuration carried by the loaded generator. -/
structure BigGANConfig where
  layers : ℕ
  num_classes : ℕ
  z_dim : ℕ

/-- The loaded generator: its size variant and configuration. -/
structure BigGANState where
  variant : ℕ
  config : BigGANConfig

/-- Trainable state created by Latents.__init__ (lines 181-197), with the
random normal initial values passed in as draws. -/
structure LatentsState where
  normu : List ℚ
  cls : List ℚ
  thresh_lat : ℚ
  max_classes : Option ℕ
  class_temperature : ℚ

/-- Source constructor Latents.__init__ (lines 181-197): the assert demands
`max_classes` to be unset or within `(0, num_classes]`, else raises with
the message below. -/
def Latents_init (num_classes : ℕ) (max_classes : Option ℕ)
    (class_temperature : ℚ) (normu_draws cls_draws : List ℚ) : Except String LatentsState :=
  if (match max_classes with
      | none => true
      | some mc => decide (0 < mc) && decide (mc ≤ num_classes)) then
    Except.ok { normu := normu_draws, cls := cls_draws, thresh_lat := 1,
                max_classes := max_classes, class_temperature := class_temperature }
  else
    Except.error ("max_classes must be between 0 and " ++ toString num_classes)

/-- The parameter vector of a Latents module, in registration order
(normu then cls), as handed to the EMA wrapper. -/
def latentParams (l : LatentsState) : List ℚ := l.normu ++ l.cls

/-- Modelled from the spec: the EMA wrapper class (file big_sleep/ema.py)
is not among the sources; spec section 4.1 specifies that the shadow is a
decayed running average updated by `shadow = decay*shadow + (1-decay)*raw`
after each optimizer step, and that at step 0 the shadow equals the
initial raw value. -/
structure EMAState where
  decay : ℚ
  raw : List ℚ
  shadow : List ℚ

/-- Modelled from the spec: EMA construction; at step 0 the shadow values
equal the raw values (spec section 4.1, edge case). -/
def EMA_init (decay : ℚ) (raw : List ℚ) : EMAState :=
  { decay := decay, raw := raw, shadow := raw }

/-- Modelled from the spec: one EMA update after an optimizer step,
`shadow = decay*shadow + (1-decay)*raw` pointwise (spec section 4.1). -/
def EMA_update (e : EMAState) : EMAState :=
  { e with shadow := List.zipWith (fun s r => e.decay * s + (1 - e.decay) * r) e.shadow e.raw }

/-- Source method Model.init_latents (lines 225-233): construct a Latents
module from the generator configuration and wrap it in the EMA shadow. -/
def init_latents (biggan : BigGANState) (max_classes : Option ℕ)
    (class_temperature ema_decay : ℚ) (normu_draws cls_draws : List ℚ) :
    Except String EMAState :=
  (Latents_init biggan.config.num_classes max_classes class_temperature
      normu_draws cls_draws).map
    (fun lat => EMA_init ema_decay (latentParams lat))

/-- State built by a successful Model.__init__. -/
structure ModelState where
  biggan : BigGANState
  ema : EMAState

/-- Source constructor Model.__init__ (lines 207-223): the image size is
validated by an assert before `BigGAN.from_pretrained` runs; only then are
the weights loaded (`load`) and the latents initialised. -/
def Model_init (load : ℕ → BigGANState) (image_size : ℕ) (max_classes : Option ℕ)
    (class_temperature ema_decay : ℚ) (normu_draws cls_draws : List ℚ) :
    Except String ModelState :=
  if image_size = 128 ∨ image_size = 256 ∨ image_size = 512 then
    let biggan := load image_size
    match init_latents biggan max_classes class_temperature ema_decay
        normu_draws cls_draws with
    | Except.ok ema => Except.ok { biggan := biggan, ema := ema }
    | Except.error e => Except.error e
  else
    Except.error "image size must be one of 128, 256, or 512"

/-! ## The driver loop and cooperative cancellation
(signal_handling lines 75-82, `Imagine.forward` lines 603-610)

The interrupt flag is written only by the signal handler (false to true);
the loops poll it at the top of every epoch and of every iteration through
the filtered generator expressions.  The flag is modelled as a function of
the number of completed training steps (the poll points), and the run is
the list of executed (epoch, iteration) pairs. -/

/-- The iteration loop of one epoch: before each iteration the flag is
polled with the current global step count `t`; on detection the remaining
iterations are skipped. -/
def iter_loop (flag : ℕ → Bool) (e t i : ℕ) : ℕ → List (ℕ × ℕ)
  | 0 => []
  | r + 1 => if flag t then [] else (e, i) :: iter_loop flag e (t + 1) (i + 1) r

/-- The epoch loop: the flag is polled before each epoch; each epoch runs
its iteration loop and advances the global step count by the number of
steps it executed. -/
def epoch_loop (flag : ℕ → Bool) (iters : ℕ) : ℕ → ℕ → ℕ → List (ℕ × ℕ)
  | _, _, 0 => []
  | t, e, r + 1 =>
    if flag t then []
    else
      let done := iter_loop flag e t 0 iters
      done ++ epoch_loop flag iters (t + done.length) (e + 1) r

/-- The full run of Imagine.forward (lines 603-610): `epochs` epochs of
`iters` iterations, with cooperative cancellation. -/
def run_loop (flag : ℕ → Bool) (epochs iters : ℕ) : List (ℕ × ℕ) :=
  epoch_loop flag iters 0 0 epochs

/-- The checkpoints written during a run: train_step saves at every
iteration with `(i + 1) % save_every == 0` (line 514), in execution
order, appending to what is already on disk. -/
def checkpoints_of (save_every : ℕ) (steps : List (ℕ × ℕ)) : List (ℕ × ℕ) :=
  steps.filter (fun p => (p.2 + 1) % save_every == 0)

/-! ## Differentiable top-k (differentiable_topk lines 131-144)

One row of the logits matrix is a function `Fin d → ℝ`.  The source
repeatedly takes the softmax of the row (entries previously picked having
been set to minus infinity), scatters the top softmax value at its index,
and accumulates; the final tensor is the sum of the k scattered stage
vectors.  Setting an entry of `x` to minus infinity makes its exp zero, so
it is modelled by a mask: masked entries have softmax weight 0 and drop
out of the normalising sum. -/

/-- Softmax value (at temperature `temperature`) of entry `j` of a row
whose entries in `mask` have been scattered to minus infinity.  The
exp of a masked entry is zero, so it gets weight 0 and drops out of the
normalising sum.  Caveat: on a fully masked row the source computes the
softmax of an all minus-infinity row, which is NaN in PyTorch, while this
embedding returns 0; the claim theorems therefore stay within the valid
range k ≤ number of columns, where at every stage at least one entry is
unmasked and that row state is unreachable. -/
noncomputable def softmaxMasked {d : ℕ} (x : Fin d → ℝ) (temperature : ℝ)
    (mask : Finset (Fin d)) (j : Fin d) : ℝ :=
  if j ∈ mask then 0
  else Real.exp (x j / temperature) / ∑ i in maskᶜ, Real.exp (x i / temperature)

/-- Index returned by `softmax(...).topk(1)`: an index attaining the
maximal softmax value. -/
noncomputable def argmaxIdx {d : ℕ} [NeZero d] (v : Fin d → ℝ) : Fin d :=
  Classical.choose (Finset.exists_max_image Finset.univ v Finset.univ_nonempty)

/-- One row of differentiable_topk (lines 131-144): `k` stages, each
scattering the current top softmax value at its index and masking that
index for the following stages; the stage vectors are summed. -/
noncomputable def diffTopkRow {d : ℕ} [NeZero d] (x : Fin d → ℝ) (temperature : ℝ) :
    ℕ → Finset (Fin d) → Fin d → ℝ
  | 0, _, _ => 0
  | k + 1, mask, i =>
    let p := softmaxMasked x temperature mask
    let j := argmaxIdx p
    (if i = j then p j else 0) + diffTopkRow x temperature k (insert j mask) i

/-- Source function differentiable_topk (lines 131-144) over an
(n, d) logits matrix. -/
noncomputable def differentiable_topk {n d : ℕ} [NeZero d]
    (x : Fin n → Fin d → ℝ) (k : ℕ) (temperature : ℝ) : Fin n → Fin d → ℝ :=
  fun r => diffTopkRow (x r) temperature k ∅

/-! ## Claim C2: differentiable top-k row sums -/

/-- Softmax values are non-negative. -/
theorem softmaxMasked_nonneg {d : ℕ} (x : Fin d → ℝ) (τ : ℝ) (mask : Finset (Fin d))
    (j : Fin d) : 0 ≤ softmaxMasked x τ mask j := by
  unfold softmaxMasked
  by_cases hj : j ∈ mask
  · rw [if_pos hj]
  · rw [if_neg hj]
    exact div_nonneg (le_of_lt (Real.exp_pos _))
      (Finset.sum_nonneg fun i _ => le_of_lt (Real.exp_pos _))

/-- The softmax value of an unmasked entry is positive. -/
theorem softmaxMasked_pos {d : ℕ} (x : Fin d → ℝ) (τ : ℝ) (mask : Finset (Fin d))
    {j : Fin d} (hj : j ∉ mask) : 0 < softmaxMasked x τ mask j := by
  unfold softmaxMasked
  rw [if_neg hj]
  exact div_pos (Real.exp_pos _)
    (Finset.sum_pos (fun i _ => Real.exp_pos _) ⟨j, Finset.mem_compl.mpr hj⟩)

/-- Each softmax value is at most one. -/
theorem softmaxMasked_le_one {d : ℕ} (x : Fin d → ℝ) (τ : ℝ) (mask : Finset (Fin d))
    (j : Fin d) : softmaxMasked x τ mask j ≤ 1 := by
  unfold softmaxMasked
  by_cases hj : j ∈ mask
  · rw [if_pos hj]
    norm_num
  · rw [if_neg hj]
    have hs : Real.exp (x j / τ) ≤ ∑ i in maskᶜ, Real.exp (x i / τ) := by
      rw [← Finset.add_sum_erase maskᶜ (fun i => Real.exp (x i / τ))
        (Finset.mem_compl.mpr hj)]
      exact le_add_of_nonneg_right
        (Finset.sum_nonneg fun i _ => le_of_lt (Real.exp_pos _))
    exact div_le_one_of_le₀ hs
      (Finset.sum_nonneg fun i _ => le_of_lt (Real.exp_pos _))

/-- The chosen index attains the maximal value. -/
theorem argmaxIdx_spec {d : ℕ} [NeZero d] (v : Fin d → ℝ) (i : Fin d) :
    v i ≤ v (argmaxIdx v) :=
  (Classical.choose_spec
    (Finset.exists_max_image Finset.univ v Finset.univ_nonempty)).2 i (Finset.mem_univ i)

/-- Unfolding of the zero-stage row. -/
theorem diffTopkRow_zero {d : ℕ} [NeZero d] (x : Fin d → ℝ) (τ : ℝ)
    (mask : Finset (Fin d)) (i : Fin d) : diffTopkRow x τ 0 mask i = 0 := rfl

/-- Unfolding of one stage. -/
theorem diffTopkRow_succ {d : ℕ} [NeZero d] (x : Fin d → ℝ) (τ : ℝ) (k : ℕ)
    (mask : Finset (Fin d)) (i : Fin d) :
    diffTopkRow x τ (k + 1) mask i
      = (if i = argmaxIdx (softmaxMasked x τ mask)
          then softmaxMasked x τ mask (argmaxIdx (softmaxMasked x τ mask)) else 0)
        + diffTopkRow x τ k (insert (argmaxIdx (softmaxMasked x τ mask)) mask) i := rfl

/-- All entries of the accumulated rows are non-negative. -/
theorem diffTopkRow_nonneg {d : ℕ} [NeZero d] (x : Fin d → ℝ) (τ : ℝ) :
    ∀ (k : ℕ) (mask : Finset (Fin d)) (i : Fin d), 0 ≤ diffTopkRow x τ k mask i := by
  intro k
  induction k with
  | zero => intro mask i; rw [diffTopkRow_zero]
  | succ k ih =>
    intro mask i
    rw [diffTopkRow_succ]
    refine add_nonneg ?_ (ih _ i)
    by_cases hi : i = argmaxIdx (softmaxMasked x τ mask)
    · rw [if_pos hi]
      exact softmaxMasked_nonneg x τ mask _
    · rw [if_neg hi]

/-- A stage adds exactly its top softmax probability to the row sum. -/
theorem diffTopkRow_sum_succ {d : ℕ} [NeZero d] (x : Fin d → ℝ) (τ : ℝ) (k : ℕ)
    (mask : Finset (Fin d)) :
    ∑ i, diffTopkRow x τ (k + 1) mask i
      = softmaxMasked x τ mask (argmaxIdx (softmaxMasked x τ mask))
        + ∑ i, diffTopkRow x τ k (insert (argmaxIdx (softmaxMasked x τ mask)) mask) i := by
  simp only [diffTopkRow_succ]
  rw [Finset.sum_add_distrib]
  congr 1
  rw [Finset.sum_ite_eq' Finset.univ (argmaxIdx (softmaxMasked x τ mask))
    (fun _ => softmaxMasked x τ mask (argmaxIdx (softmaxMasked x τ mask)))]
  rw [if_pos (Finset.mem_univ _)]

/-- Each row sum is at most k: every stage contributes at most one. -/
theorem diffTopkRow_sum_le {d : ℕ} [NeZero d] (x : Fin d → ℝ) (τ : ℝ) :
    ∀ (k : ℕ) (mask : Finset (Fin d)), ∑ i, diffTopkRow x τ k mask i ≤ k := by
  intro k
  induction k with
  | zero => intro mask; simp [diffTopkRow_zero]
  | succ k ih =>
    intro mask
    rw [diffTopkRow_sum_succ]
    have h1 := softmaxMasked_le_one x τ mask (argmaxIdx (softmaxMasked x τ mask))
    have h2 := ih (insert (argmaxIdx (softmaxMasked x τ mask)) mask)
    push_cast
    linarith

/-- With at least one stage and at least one unmasked entry, the row sum
is positive. -/
theorem diffTopkRow_sum_pos {d : ℕ} [NeZero d] (x : Fin d → ℝ) (τ : ℝ) (k : ℕ)
    (mask : Finset (Fin d)) (hk : 0 < k) (hmask : (maskᶜ : Finset (Fin d)).Nonempty) :
    0 < ∑ i, diffTopkRow x τ k mask i := by
  obtain ⟨k', rfl⟩ : ∃ k', k = k' + 1 := ⟨k - 1, by omega⟩
  rw [diffTopkRow_sum_succ]
  obtain ⟨i0, hi0⟩ := hmask
  have hpos : 0 < softmaxMasked x τ mask i0 :=
    softmaxMasked_pos x τ mask (Finset.mem_compl.mp hi0)
  have hle : softmaxMasked x τ mask i0
      ≤ softmaxMasked x τ mask (argmaxIdx (softmaxMasked x τ mask)) :=
    argmaxIdx_spec (softmaxMasked x τ mask) i0
  have hrest : 0 ≤ ∑ i, diffTopkRow x τ k'
      (insert (argmaxIdx (softmaxMasked x τ mask)) mask) i :=
    Finset.sum_nonneg fun i _ => diffTopkRow_nonneg x τ k' _ i
  linarith

/-- Claim C2 (amended): for every (n, d) logits matrix with d at least 1,
every temperature and every valid k with 0 < k ≤ d (the max_classes
range of the original claim; beyond d the source softmaxes an all
minus-infinity row, which is NaN), each row of the differentiable top-k
output sums to a value in the half-open interval (0, k]: every stage
contributes the current maximal renormalized softmax probability, which
lies in (0, 1] but is in general below 1, so the row sum is generally
strictly below k rather than equal to it. -/
theorem differentiable_topk_row_sum_bounds {n d : ℕ} [NeZero d]
    (x : Fin n → Fin d → ℝ) (k : ℕ) (τ : ℝ) (hk : 0 < k) (hkd : k ≤ d) (r : Fin n) :
    0 < ∑ i, differentiable_topk x k τ r i ∧
    ∑ i, differentiable_topk x k τ r i ≤ k := by
  simp only [differentiable_topk]
  constructor
  · apply diffTopkRow_sum_pos (x r) τ k ∅ hk
    rw [Finset.compl_empty]
    exact Finset.univ_nonempty_iff.mpr (Fin.pos_iff_nonempty.mp (by omega))
  · exact diffTopkRow_sum_le (x r) τ k ∅

/-- Witness for claim C2 (amended) on a concrete one-row, two-column zero
matrix with k = 1 ≤ 2 columns. -/
theorem differentiable_topk_row_sum_bounds_witness :
    0 < ∑ i, differentiable_topk (fun (_ : Fin 1) (_ : Fin 2) => (0 : ℝ)) 1 1 0 i ∧
    ∑ i, differentiable_topk (fun (_ : Fin 1) (_ : Fin 2) => (0 : ℝ)) 1 1 0 i
        ≤ ((1 : ℕ) : ℝ) :=
  differentiable_topk_row_sum_bounds (fun (_ : Fin 1) (_ : Fin 2) => (0 : ℝ)) 1 1
    (by decide) (by decide) 0

/-- Claim C2 is false as stated: on the one-row logits matrix [[0, 0]]
with k = 1 and temperature 1, the row of the differentiable top-k output
sums to 1/2 (the maximal softmax probability of two equal entries), not to
k = 1. -/
theorem differentiable_topk_row_sum_counterexample :
    (∑ i, differentiable_topk (fun (_ : Fin 1) (_ : Fin 2) => (0 : ℝ)) 1 1 0 i) = 1/2 ∧
    ((1 : ℝ)/2) ≠ 1 := by
  constructor
  · simp only [differentiable_topk]
    have hp : ∀ j : Fin 2, softmaxMasked (fun _ : Fin 2 => (0 : ℝ)) 1 ∅ j = 1/2 := by
      intro j
      unfold softmaxMasked
      rw [if_neg (Finset.not_mem_empty j), Finset.compl_empty]
      simp [Real.exp_zero, Finset.sum_const, Finset.card_univ]
    have h : (∑ i, diffTopkRow (fun _ : Fin 2 => (0 : ℝ)) 1 (0 + 1) ∅ i) = 1/2 := by
      rw [diffTopkRow_sum_succ]
      rw [show softmaxMasked (fun _ : Fin 2 => (0 : ℝ)) 1 ∅
          (argmaxIdx (softmaxMasked (fun _ : Fin 2 => (0 : ℝ)) 1 ∅)) = 1/2 from hp _]
      simp [diffTopkRow_zero]
    exact h
  · norm_num

/-! ## Claim C4: best-score tracking -/

/-- Claim C4: with save_best enabled, at a checkpoint the best file is
(re)written and current_best_score is updated exactly when the top score is
strictly below the recorded best; a new top score of -5.8 against a
running best of -5.1 rewrites the best file, a new top score of -4.0 does
not. -/
theorem best_score_tracking (save_progress : Bool) (top_score current_best : ℚ)
    (w : CheckpointWrites) :
    ((checkpoint_saves save_progress true top_score current_best w).wroteBest = true
        ↔ top_score < current_best) ∧
    ((checkpoint_saves save_progress true top_score current_best w).newBest
        = if top_score < current_best then top_score else current_best) ∧
    (checkpoint_saves save_progress true (-58/10) (-51/10) w).wroteBest = true ∧
    (checkpoint_saves save_progress true (-58/10) (-51/10) w).newBest = -58/10 ∧
    (checkpoint_saves save_progress true (-4) (-51/10) w).wroteBest = false ∧
    (checkpoint_saves save_progress true (-4) (-51/10) w).newBest = -51/10 := by
  refine ⟨?_, ?_, ?_, ?_, ?_, ?_⟩
  · by_cases h : top_score < current_best <;> simp [checkpoint_saves, h]
  · by_cases h : top_score < current_best <;> simp [checkpoint_saves, h]
  · have h : (-58/10 : ℚ) < -51/10 := by norm_num
    simp [checkpoint_saves, h]
  · have h : (-58/10 : ℚ) < -51/10 := by norm_num
    simp [checkpoint_saves, h]
  · have h : ¬ ((-4 : ℚ) < -51/10) := by norm_num
    simp [checkpoint_saves, h]
  · have h : ¬ ((-4 : ℚ) < -51/10) := by norm_num
    simp [checkpoint_saves, h]

/-! ## Claim C9: save errors are caught, logged and non-fatal -/

/-- Claim C9: every write failure while saving an image artifact is caught
by the save_image wrapper and logged, the best-score update is unaffected
by write outcomes, and the checkpoint routine is a total function (no
exception propagates to the training loop). -/
theorem save_errors_nonfatal (save_progress save_best : Bool)
    (top_score current_best : ℚ) (w : CheckpointWrites) (e : String) :
    (checkpoint_saves save_progress save_best top_score current_best w).newBest
        = (if save_best ∧ top_score < current_best then top_score else current_best) ∧
    (checkpoint_saves save_progress save_best top_score current_best w).logs
        = save_image w.canonical
            ++ (if save_progress then save_image w.progress else [])
            ++ (if save_best ∧ top_score < current_best then save_image w.best else []) ∧
    save_image (Except.error e) = ["Error saving image: " ++ e] ∧
    save_image (Except.ok ()) = [] := by
  refine ⟨?_, ?_, rfl, rfl⟩
  · by_cases h : save_best ∧ top_score < current_best <;> simp [checkpoint_saves, h]
  · by_cases h : save_best ∧ top_score < current_best <;> simp [checkpoint_saves, h]

/-! ## Claim C1: checkpoint selection -/

/-- Claim C1 (amended): the tensor handed to
`torch.topk(·, k=1, largest=False)` at a checkpoint is the 0-dimensional
similarity loss (the per-view cosine similarities are averaged per phrase
and summed across phrases before the topk), so the selection is over a
single element and the selected index is always 0, for every per-view
score configuration. -/
theorem checkpoint_selection_always_zero (loss_coef : ℚ)
    (max_views min_views : List (List ℚ)) :
    checkpoint_selected loss_coef max_views min_views = some 0 := rfl

/-- Claim C1 is false as stated: take one max phrase whose per-view
similarity scores are exactly the example vector [-3.2, -5.1, -1.0, -4.4]
(cosine similarities [0.032, 0.051, 0.010, 0.044] at loss coefficient
100).  An arg-min over that per-view vector would select index 1, but the
driver applies the topk to the scalar similarity loss and selects index 0. -/
theorem checkpoint_selection_example_counterexample :
    spec_per_view_scores 100 [8/250, 51/1000, 1/100, 11/250]
        = [-16/5, -51/10, -1, -22/5] ∧
    topk_min1 [(-16/5 : ℚ), -51/10, -1, -22/5] = some (-51/10, 1) ∧
    checkpoint_selected 100 [[8/250, 51/1000, 1/100, 11/250]] [] = some 0 ∧
    (0 : ℕ) ≠ 1 := by
  refine ⟨by norm_num [spec_per_view_scores], ?_, rfl, by decide⟩
  norm_num [topk_min1, topkMin1Go]

/-! ## Claim C10: EMA shadow equals raw at construction -/

/-- Claim C10: immediately after Model.init_latents wraps the fresh
Latents module in the EMA shadow (before any update), every shadow value
equals the corresponding initial raw parameter value. -/
theorem ema_shadow_initial (biggan : BigGANState) (max_classes : Option ℕ)
    (class_temperature ema_decay : ℚ) (normu_draws cls_draws : List ℚ)
    (ema : EMAState)
    (h : init_latents biggan max_classes class_temperature ema_decay
          normu_draws cls_draws = Except.ok ema) :
    ema.shadow = ema.raw := by
  unfold init_latents at h
  cases hL : Latents_init biggan.config.num_classes max_classes class_temperature
      normu_draws cls_draws with
  | ok lat =>
    rw [hL] at h
    simp only [Except.map] at h
    cases h
    rfl
  | error msg =>
    rw [hL] at h
    simp [Except.map] at h

/-- Witness for claim C10 at a concrete construction. -/
theorem ema_shadow_initial_witness :
    (EMA_init (1/2) ([(1 : ℚ), 2] ++ [3, 4])).shadow
      = (EMA_init (1/2) ([(1 : ℚ), 2] ++ [3, 4])).raw :=
  ema_shadow_initial ⟨256, ⟨14, 1000, 128⟩⟩ none 2 (1/2) [1, 2] [3, 4]
    (EMA_init (1/2) ([1, 2] ++ [3, 4])) rfl

/-! ## Claim C6: image-size validation happens before loading -/

/-- Claim C6: Model.__init__ with an image size outside {128, 256, 512}
fails with the descriptive assert message and the outcome does not depend
on the loader (no weights are consulted); with a size in {128, 256, 512}
construction proceeds to loading and succeeds. -/
theorem image_size_validation (load loadAlt : ℕ → BigGANState) (s : ℕ)
    (class_temperature ema_decay : ℚ) (normu_draws cls_draws : List ℚ) :
    (¬ (s = 128 ∨ s = 256 ∨ s = 512) →
      Model_init load s none class_temperature ema_decay normu_draws cls_draws
          = Except.error "image size must be one of 128, 256, or 512" ∧
      Model_init load s none class_temperature ema_decay normu_draws cls_draws
          = Model_init loadAlt s none class_temperature ema_decay normu_draws cls_draws) ∧
    ((s = 128 ∨ s = 256 ∨ s = 512) →
      Model_init load s none class_temperature ema_decay normu_draws cls_draws
          = Except.ok { biggan := load s,
                        ema := EMA_init ema_decay (normu_draws ++ cls_draws) }) := by
  constructor
  · intro h
    constructor <;> simp [Model_init, h]
  · intro h
    simp [Model_init, h, init_latents, Latents_init, latentParams, Except.map]

/-- Witness for claim C6: size 200 is rejected with the assert message,
size 256 constructs successfully. -/
theorem image_size_validation_witness :
    Model_init (fun v => ⟨v, ⟨14, 1000, 128⟩⟩) 200 none 2 (99/100) [] []
        = Except.error "image size must be one of 128, 256, or 512" ∧
    Model_init (fun v => ⟨v, ⟨14, 1000, 128⟩⟩) 256 none 2 (99/100) [] []
        = Except.ok { biggan := ⟨256, ⟨14, 1000, 128⟩⟩,
                      ema := EMA_init (99/100) ([] ++ []) } :=
  ⟨((image_size_validation (fun v => ⟨v, ⟨14, 1000, 128⟩⟩)
      (fun v => ⟨v, ⟨14, 1000, 128⟩⟩) 200 2 (99/100) [] []).1 (by decide)).1,
   (image_size_validation (fun v => ⟨v, ⟨14, 1000, 128⟩⟩)
      (fun v => ⟨v, ⟨14, 1000, 128⟩⟩) 256 2 (99/100) [] []).2 (by decide)⟩

/-! ## Claim C3: the min text is concatenated into the encoded prompt -/

/-- Claim C3: with a prompt and a non-empty text_min, set_clip_encoding
reassigns its local text to the concatenation
`text + "_wout_" + text_min[:255]` before calling encode_max_and_min, so
the max-phrase embeddings are computed from the concatenated string (the
same string the filename base is built from), which differs from the
original prompt. -/
theorem min_text_concatenated_into_encoding {E : Type} (textEnc : List Char → E)
    (imgEnc : ImgInput → E) (avgEnc : E → E → E) (t text_min : List Char)
    (hm : text_min ≠ []) :
    (set_clip_encoding textEnc imgEnc avgEnc false [] none false none
        (some t) none none text_min).encoded_max
      = encode_multiple_phrases textEnc imgEnc avgEnc
          (some (t ++ "_wout_".toList ++ text_min.take 255)) none none ∧
    (set_clip_encoding textEnc imgEnc avgEnc false [] none false none
        (some t) none none text_min).text_path
      = create_text_path (some (t ++ "_wout_".toList ++ text_min.take 255)) none none ∧
    t ++ "_wout_".toList ++ text_min.take 255 ≠ t := by
  have hl : 0 < text_min.length := List.length_pos.mpr hm
  refine ⟨?_, ?_, ?_⟩
  · simp [set_clip_encoding, encode_max_and_min, hl]
  · simp [set_clip_encoding, hl]
  · intro h
    have h2 := congrArg List.length h
    have h6 : ("_wout_".toList).length = 6 := rfl
    simp only [List.length_append, List.length_take, h6] at h2
    omega

/-- Witness for claim C3 at the concrete prompt "a cat" with min text
"blurry", with the encoder instantiated as the identity on strings. -/
theorem min_text_concatenated_into_encoding_witness :
    (set_clip_encoding (fun s : List Char => s) (fun _ : ImgInput => ([] : List Char))
        (fun a b => a ++ b) false [] none false none
        (some "a cat".toList) none none "blurry".toList).encoded_max
      = encode_multiple_phrases (fun s : List Char => s) (fun _ => [])
          (fun a b => a ++ b)
          (some ("a cat".toList ++ "_wout_".toList ++ "blurry".toList.take 255))
          none none ∧
    (set_clip_encoding (fun s : List Char => s) (fun _ : ImgInput => ([] : List Char))
        (fun a b => a ++ b) false [] none false none
        (some "a cat".toList) none none "blurry".toList).text_path
      = create_text_path
          (some ("a cat".toList ++ "_wout_".toList ++ "blurry".toList.take 255))
          none none ∧
    "a cat".toList ++ "_wout_".toList ++ "blurry".toList.take 255 ≠ "a cat".toList :=
  min_text_concatenated_into_encoding (fun s : List Char => s)
    (fun _ : ImgInput => ([] : List Char)) (fun a b => a ++ b)
    "a cat".toList "blurry".toList (by decide)

/-! ## Claim C7: cutout size and offset bounds -/

/-- Bounds on the clipped size factor. -/
theorem clipQ_cutout_bounds (g : ℚ) :
    1/2 ≤ clipQ g (1/2) (19/20) ∧ clipQ g (1/2) (19/20) ≤ 19/20 :=
  ⟨le_min (le_max_right g (1/2)) (by norm_num), min_le_right _ _⟩

/-- The cutout size is the floor of the clipped product (the product is
non-negative, so Python int truncation is the floor). -/
theorem sample_cutout_size_eq_floor (width : ℕ) (g : ℚ) :
    sample_cutout_size width g = ⌊(width : ℚ) * clipQ g (1/2) (19/20)⌋ := by
  have h0 : 0 ≤ (width : ℚ) * clipQ g (1/2) (19/20) :=
    mul_nonneg (Nat.cast_nonneg width)
      (le_trans (by norm_num) (clipQ_cutout_bounds g).1)
  unfold sample_cutout_size pyInt
  rw [if_pos h0]

/-- Concrete evaluation of the cutout size at width 512 and draw 0.8. -/
theorem sample_cutout_size_512 : sample_cutout_size 512 (4/5) = 409 := by
  have hclip : clipQ (4/5 : ℚ) (1/2) (19/20) = 4/5 := by
    unfold clipQ
    rw [max_eq_left (by norm_num), min_eq_left (by norm_num)]
  rw [sample_cutout_size_eq_floor, hclip,
    show ((512 : ℕ) : ℚ) * (4/5 : ℚ) = 2048/5 by norm_num, Int.floor_eq_iff]
  constructor <;> norm_num

/-- Claim C7 (amended): for every width, every size draw and every offset
draw, the sampled crop side satisfies
`floor(0.5*W) ≤ size` and `size ≤ 0.95*W` (so for the even generator
widths 128, 256, 512 the side lies in `[0.5*W, 0.95*W]` exactly), and in
both offset modes the offsets stay inside `[0, W - size]`, so the square
slice lies fully within the image.  The randint draws carry their
inclusive-range contract as hypotheses. -/
theorem cutout_size_and_offsets_in_bounds (width : ℕ) (g : ℚ) (center_bias : Bool)
    (d : OffsetDraws)
    (hux : 0 ≤ d.uni_x ∧ d.uni_x ≤ (width : ℤ) - sample_cutout_size width g)
    (huy : 0 ≤ d.uni_y ∧ d.uni_y ≤ (width : ℤ) - sample_cutout_size width g) :
    ⌊(width : ℚ) / 2⌋ ≤ sample_cutout_size width g ∧
    (sample_cutout_size width g : ℚ) ≤ 19/20 * width ∧
    (2 ∣ width → (width : ℚ) / 2 ≤ (sample_cutout_size width g : ℚ)) ∧
    0 ≤ (rand_cutout_offsets width (sample_cutout_size width g) center_bias d).1 ∧
    (rand_cutout_offsets width (sample_cutout_size width g) center_bias d).1
        + sample_cutout_size width g ≤ width ∧
    0 ≤ (rand_cutout_offsets width (sample_cutout_size width g) center_bias d).2 ∧
    (rand_cutout_offsets width (sample_cutout_size width g) center_bias d).2
        + sample_cutout_size width g ≤ width := by
  obtain ⟨hc1, hc2⟩ := clipQ_cutout_bounds g
  have hw0 : (0 : ℚ) ≤ (width : ℚ) := Nat.cast_nonneg width
  have hfloor := sample_cutout_size_eq_floor width g
  have hlow : ⌊(width : ℚ) / 2⌋ ≤ sample_cutout_size width g := by
    rw [hfloor]
    apply Int.floor_le_floor
    calc (width : ℚ) / 2 = (width : ℚ) * (1/2) := by ring
    _ ≤ (width : ℚ) * clipQ g (1/2) (19/20) := by
        exact mul_le_mul_of_nonneg_left hc1 hw0
  have hhigh : (sample_cutout_size width g : ℚ) ≤ 19/20 * width := by
    rw [hfloor]
    calc ((⌊(width : ℚ) * clipQ g (1/2) (19/20)⌋ : ℤ) : ℚ)
        ≤ (width : ℚ) * clipQ g (1/2) (19/20) := Int.floor_le _
    _ ≤ (width : ℚ) * (19/20) := mul_le_mul_of_nonneg_left hc2 hw0
    _ = 19/20 * width := by ring
  have heven : 2 ∣ width → (width : ℚ) / 2 ≤ (sample_cutout_size width g : ℚ) := by
    rintro ⟨m, rfl⟩
    rw [hfloor]
    have h1 : ((m : ℤ) : ℚ) ≤ (((2 * m : ℕ) : ℚ)) * clipQ g (1/2) (19/20) := by
      push_cast
      nlinarith [hc1, Nat.cast_nonneg (α := ℚ) m]
    have hm : (m : ℤ) ≤ ⌊(((2 * m : ℕ) : ℚ)) * clipQ g (1/2) (19/20)⌋ :=
      Int.le_floor.mpr h1
    have hmq : ((m : ℤ) : ℚ) ≤ ((⌊(((2 * m : ℕ) : ℚ)) * clipQ g (1/2) (19/20)⌋ : ℤ) : ℚ) := by
      exact_mod_cast hm
    push_cast at hmq ⊢
    linarith
  refine ⟨hlow, hhigh, heven, ?_, ?_, ?_, ?_⟩ <;>
  · rcases hux with ⟨hux1, hux2⟩
    rcases huy with ⟨huy1, huy2⟩
    cases center_bias <;>
      simp only [rand_cutout_offsets] <;>
      split_ifs <;>
      omega

/-- Witness for claim C7 at width 512 with size draw 0.8 (kept by the
clip; the side is 409) and a center-biased offset pass in which the x
gauss draw overshoots and is replaced by the uniform draw. -/
theorem cutout_size_and_offsets_in_bounds_witness :
    ⌊(512 : ℚ) / 2⌋ ≤ sample_cutout_size 512 (4/5) ∧
    (sample_cutout_size 512 (4/5) : ℚ) ≤ 19/20 * 512 ∧
    (2 ∣ 512 → (512 : ℚ) / 2 ≤ (sample_cutout_size 512 (4/5) : ℚ)) ∧
    0 ≤ (rand_cutout_offsets 512 (sample_cutout_size 512 (4/5)) true ⟨600, -5, 50, 60⟩).1 ∧
    (rand_cutout_offsets 512 (sample_cutout_size 512 (4/5)) true ⟨600, -5, 50, 60⟩).1
        + sample_cutout_size 512 (4/5) ≤ 512 ∧
    0 ≤ (rand_cutout_offsets 512 (sample_cutout_size 512 (4/5)) true ⟨600, -5, 50, 60⟩).2 ∧
    (rand_cutout_offsets 512 (sample_cutout_size 512 (4/5)) true ⟨600, -5, 50, 60⟩).2
        + sample_cutout_size 512 (4/5) ≤ 512 :=
  cutout_size_and_offsets_in_bounds 512 (4/5) true ⟨600, -5, 50, 60⟩
    (by rw [sample_cutout_size_512]
        exact ⟨by norm_num, by norm_num⟩)
    (by rw [sample_cutout_size_512]
        exact ⟨by norm_num, by norm_num⟩)

/-- Claim C7 is false as stated: at width 3 with a normal draw of 0.4
(clipped up to 0.5) the Python int truncation gives side 1, which is
strictly below 0.5 * 3 = 1.5, so the side does not lie in
`[0.5*W, 0.95*W]`. -/
theorem cutout_size_truncation_counterexample :
    sample_cutout_size 3 (2/5) = 1 ∧
    ((sample_cutout_size 3 (2/5) : ℚ) < 1/2 * 3) := by
  have hclip : clipQ (2/5 : ℚ) (1/2) (19/20) = 1/2 := by
    unfold clipQ
    rw [max_eq_right (by norm_num), min_eq_left (by norm_num)]
  have h : sample_cutout_size 3 (2/5) = 1 := by
    rw [sample_cutout_size_eq_floor, hclip,
      show ((3 : ℕ) : ℚ) * (1/2 : ℚ) = 3/2 by norm_num, Int.floor_eq_iff]
    constructor <;> norm_num
  refine ⟨h, ?_⟩
  rw [h]
  norm_num

/-! ## Claim C8: cooperative cancellation -/

/-- Unfolding: an iteration step taken when the flag is unset. -/
theorem iter_loop_cons_eq (flag : ℕ → Bool) (e t i r : ℕ) (hf : flag t = false) :
    iter_loop flag e t i (r + 1) = (e, i) :: iter_loop flag e (t + 1) (i + 1) r := by
  simp [iter_loop, hf]

/-- Unfolding: an iteration step aborted because the flag is set. -/
theorem iter_loop_nil_eq (flag : ℕ → Bool) (e t i r : ℕ) (hf : flag t = true) :
    iter_loop flag e t i (r + 1) = [] := by
  simp [iter_loop, hf]

/-- Unfolding: an epoch taken when the flag is unset. -/
theorem epoch_loop_cons_eq (flag : ℕ → Bool) (iters t e r : ℕ) (hf : flag t = false) :
    epoch_loop flag iters t e (r + 1)
      = iter_loop flag e t 0 iters
          ++ epoch_loop flag iters (t + (iter_loop flag e t 0 iters).length) (e + 1) r := by
  simp [epoch_loop, hf]

/-- Every global step executed by the iteration loop polled the flag and
found it unset. -/
theorem iter_loop_flag_false (flag : ℕ → Bool) (e : ℕ) :
    ∀ (r t i s : ℕ), t ≤ s → s < t + (iter_loop flag e t i r).length → flag s = false := by
  intro r
  induction r with
  | zero => intro t i s _ h2; simp [iter_loop] at h2; omega
  | succ r ih =>
    intro t i s h1 h2
    by_cases hf : flag t = true
    · rw [iter_loop_nil_eq flag e t i r hf] at h2
      simp at h2
      omega
    · have hf2 : flag t = false := Bool.eq_false_iff.mpr hf
      rcases Nat.eq_or_lt_of_le h1 with rfl | hlt
      · exact hf2
      · rw [iter_loop_cons_eq flag e t i r hf2] at h2
        simp only [List.length_cons] at h2
        exact ih (t + 1) (i + 1) s hlt (by omega)

/-- The iteration loop executes at most its nominal count. -/
theorem iter_loop_length_le (flag : ℕ → Bool) (e : ℕ) :
    ∀ (r t i : ℕ), (iter_loop flag e t i r).length ≤ r := by
  intro r
  induction r with
  | zero => intro t i; simp [iter_loop]
  | succ r ih =>
    intro t i
    by_cases hf : flag t = true
    · rw [iter_loop_nil_eq flag e t i r hf]
      simp
    · rw [iter_loop_cons_eq flag e t i r (Bool.eq_false_iff.mpr hf)]
      simp only [List.length_cons]
      exact Nat.succ_le_succ (ih (t + 1) (i + 1))

/-- With the flag never set, the iteration loop executes its full count. -/
theorem iter_loop_length_of_no_flag :
    ∀ (r e t i : ℕ), (iter_loop (fun _ => false) e t i r).length = r := by
  intro r
  induction r with
  | zero => intro e t i; simp [iter_loop]
  | succ r ih =>
    intro e t i
    rw [iter_loop_cons_eq (fun _ => false) e t i r rfl]
    simp only [List.length_cons, ih]

/-- If the iteration loop stopped short of its nominal count, the flag was
set at the first poll it skipped from. -/
theorem iter_loop_stop (flag : ℕ → Bool) (e : ℕ) :
    ∀ (r t i : ℕ), (iter_loop flag e t i r).length < r →
      flag (t + (iter_loop flag e t i r).length) = true := by
  intro r
  induction r with
  | zero => intro t i h; simp [iter_loop] at h
  | succ r ih =>
    intro t i h
    by_cases hf : flag t = true
    · rw [iter_loop_nil_eq flag e t i r hf]
      simpa using hf
    · have hf2 : flag t = false := Bool.eq_false_iff.mpr hf
      rw [iter_loop_cons_eq flag e t i r hf2] at h ⊢
      simp only [List.length_cons] at h ⊢
      have hlt : (iter_loop flag e (t + 1) (i + 1) r).length < r := by omega
      have hrec := ih (t + 1) (i + 1) hlt
      have harg : t + ((iter_loop flag e (t + 1) (i + 1) r).length + 1)
          = (t + 1) + (iter_loop flag e (t + 1) (i + 1) r).length := by omega
      rw [harg]
      exact hrec

/-- The interrupted iteration loop is a prefix of the uninterrupted one. -/
theorem iter_loop_isPrefix (flag : ℕ → Bool) (e : ℕ) :
    ∀ (r t i : ℕ), iter_loop flag e t i r <+: iter_loop (fun _ => false) e t i r := by
  intro r
  induction r with
  | zero => intro t i; simp [iter_loop]
  | succ r ih =>
    intro t i
    rw [iter_loop_cons_eq (fun _ => false) e t i r rfl]
    by_cases hf : flag t = true
    · rw [iter_loop_nil_eq flag e t i r hf]
      exact List.nil_prefix
    · rw [iter_loop_cons_eq flag e t i r (Bool.eq_false_iff.mpr hf)]
      exact List.cons_prefix_cons.mpr ⟨rfl, ih (t + 1) (i + 1)⟩

/-- An epoch loop entered with the flag already set executes nothing. -/
theorem epoch_loop_eq_nil_of_flag (flag : ℕ → Bool) (iters t e r : ℕ)
    (hf : flag t = true) : epoch_loop flag iters t e r = [] := by
  cases r with
  | zero => rfl
  | succ r => simp [epoch_loop, hf]

/-- Every global step executed by the epoch loop polled the flag and found
it unset. -/
theorem epoch_loop_flag_false (flag : ℕ → Bool) (iters : ℕ) :
    ∀ (r t e s : ℕ), t ≤ s → s < t + (epoch_loop flag iters t e r).length →
      flag s = false := by
  intro r
  induction r with
  | zero => intro t e s _ h2; simp [epoch_loop] at h2; omega
  | succ r ih =>
    intro t e s h1 h2
    by_cases hf : flag t = true
    · rw [epoch_loop_eq_nil_of_flag flag iters t e (r + 1) hf] at h2
      simp at h2
      omega
    · have hf2 : flag t = false := Bool.eq_false_iff.mpr hf
      rw [epoch_loop_cons_eq flag iters t e r hf2] at h2
      simp only [List.length_append] at h2
      by_cases hs : s < t + (iter_loop flag e t 0 iters).length
      · exact iter_loop_flag_false flag e iters t 0 s h1 hs
      · exact ih (t + (iter_loop flag e t 0 iters).length) (e + 1) s (by omega) (by omega)

/-- With the flag never set, the epoch loop executes its full
epochs-times-iterations count. -/
theorem epoch_loop_length_of_no_flag (iters : ℕ) :
    ∀ (r t e : ℕ), (epoch_loop (fun _ => false) iters t e r).length = r * iters := by
  intro r
  induction r with
  | zero => intro t e; simp [epoch_loop]
  | succ r ih =>
    intro t e
    rw [epoch_loop_cons_eq (fun _ => false) iters t e r rfl]
    simp only [List.length_append, iter_loop_length_of_no_flag, ih]
    ring

/-- The interrupted epoch loop is a prefix of the uninterrupted one. -/
theorem epoch_loop_isPrefix (flag : ℕ → Bool) (iters : ℕ) :
    ∀ (r t e : ℕ), epoch_loop flag iters t e r <+: epoch_loop (fun _ => false) iters t e r := by
  intro r
  induction r with
  | zero => intro t e; simp [epoch_loop]
  | succ r ih =>
    intro t e
    rw [epoch_loop_cons_eq (fun _ => false) iters t e r rfl]
    by_cases hf : flag t = true
    · rw [epoch_loop_eq_nil_of_flag flag iters t e (r + 1) hf]
      exact List.nil_prefix
    · have hf2 : flag t = false := Bool.eq_false_iff.mpr hf
      rw [epoch_loop_cons_eq flag iters t e r hf2]
      by_cases hlen : (iter_loop flag e t 0 iters).length = iters
      · have hlenff : (iter_loop (fun _ => false) e t 0 iters).length = iters :=
          iter_loop_length_of_no_flag iters e t 0
        have hdone : iter_loop flag e t 0 iters = iter_loop (fun _ => false) e t 0 iters :=
          List.IsPrefix.eq_of_length (iter_loop_isPrefix flag e iters t 0)
            (by rw [hlen, hlenff])
        rw [hdone, hlenff]
        obtain ⟨w, hw⟩ := ih (t + iters) (e + 1)
        exact ⟨w, by rw [List.append_assoc, hw]⟩
      · have hlt : (iter_loop flag e t 0 iters).length < iters :=
          lt_of_le_of_ne (iter_loop_length_le flag e iters t 0) hlen
        have hstop : flag (t + (iter_loop flag e t 0 iters).length) = true :=
          iter_loop_stop flag e iters t 0 hlt
        rw [epoch_loop_eq_nil_of_flag flag iters _ _ _ hstop, List.append_nil]
        exact (iter_loop_isPrefix flag e iters t 0).trans ( List.prefix_append _ _)

/-! ## Claim C5: output path sanitization -/

/-- Character replacement distributes over append. -/
theorem replaceChar_append (old : Char) (new : List Char) (a b : List Char) :
    replaceChar old new (a ++ b) = replaceChar old new a ++ replaceChar old new b := by
  induction a with
  | nil => rfl
  | cons c rest ih => simp [replaceChar, ih]

/-- The replacement chain distributes over append. -/
theorem replace_pipeline_append (a b : List Char) :
    replace_pipeline (a ++ b) = replace_pipeline a ++ replace_pipeline b := by
  simp [replace_pipeline, replaceChar_append]

/-- A replaced character is gone afterwards (unless reintroduced by the
replacement string). -/
theorem not_mem_replaceChar_self (old : Char) (new : List Char) (h : old ∉ new) :
    ∀ s : List Char, old ∉ replaceChar old new s := by
  intro s
  induction s with
  | nil => simp [replaceChar]
  | cons c rest ih =>
    simp only [replaceChar, List.mem_append]
    rintro (h1 | h1)
    · by_cases hc : c = old
      · rw [if_pos hc] at h1
        exact h h1
      · rw [if_neg hc] at h1
        simp at h1
        exact hc h1.symm
    · exact ih h1

/-- Replacement of a different character introduces no new occurrence. -/
theorem not_mem_replaceChar (c old : Char) (new : List Char) (_hc : c ≠ old)
    (hn : c ∉ new) : ∀ s : List Char, c ∉ s → c ∉ replaceChar old new s := by
  intro s
  induction s with
  | nil => intro _; simp [replaceChar]
  | cons a rest ih =>
    intro hs
    simp only [List.mem_cons, not_or] at hs
    simp only [replaceChar, List.mem_append]
    rintro (h1 | h1)
    · by_cases ha : a = old
      · rw [if_pos ha] at h1
        exact hn h1
      · rw [if_neg ha] at h1
        simp at h1
        exact hs.1 h1
    · exact ih hs.2 h1

/-- No raw pipe survives the replacement chain. -/
theorem pipe_not_mem_replace_pipeline (s : List Char) : '|' ∉ replace_pipeline s :=
  not_mem_replaceChar_self '|' ['-', '-'] (by decide) _

/-- No space survives the replacement chain. -/
theorem space_not_mem_replace_pipeline (s : List Char) : ' ' ∉ replace_pipeline s := by
  unfold replace_pipeline
  exact not_mem_replaceChar ' ' '|' ['-', '-'] (by decide) (by decide) _
    (not_mem_replaceChar_self ' ' ['_'] (by decide) _)

/-- No comma survives the replacement chain. -/
theorem comma_not_mem_replace_pipeline (s : List Char) : ',' ∉ replace_pipeline s := by
  unfold replace_pipeline
  exact not_mem_replaceChar ',' '|' ['-', '-'] (by decide) (by decide) _
    (not_mem_replaceChar ',' ' ' ['_'] (by decide) (by decide) _
      (not_mem_replaceChar_self ',' [] (by decide) _))

/-- Every character of the sanitized name stems from the replaced string. -/
theorem mem_replace_pipeline_of_mem_sanitize_name (c : Char) (s : List Char)
    (h : c ∈ sanitize_name s) : c ∈ replace_pipeline s := by
  unfold sanitize_name pyStrip at h
  have h1 := ( List.take_prefix 255 _).sublist.subset h
  have h2 := ( List.rdropWhile_prefix isStripChar _).sublist.subset h1
  exact (List.dropWhile_suffix isStripChar).sublist.subset h2

/-- Right-strip distributes over an append whose right part does not
vanish. -/
theorem rdropWhile_append_eq (p : Char → Bool) (X Y : List Char) :
    (X ++ Y).rdropWhile p
      = if (Y.rdropWhile p).isEmpty then X.rdropWhile p else X ++ Y.rdropWhile p := by
  unfold List.rdropWhile
  rw [List.reverse_append, List.dropWhile_append]
  by_cases h : (Y.reverse.dropWhile p).isEmpty
  · rw [if_pos h, if_pos (by simpa [List.isEmpty_iff] using h)]
  · rw [if_neg h, if_neg (by simpa [List.isEmpty_iff] using h)]
    rw [List.reverse_append, List.reverse_reverse]

/-- A list with a non-strip character does not right-strip to nothing. -/
theorem rdropWhile_ne_nil_of_mem {Z : List Char} {c : Char} (hc : c ∈ Z)
    (hp : isStripChar c = false) : Z.rdropWhile isStripChar ≠ [] := by
  intro h
  have := List.rdropWhile_eq_nil_iff.mp h c hc
  rw [hp] at this
  exact Bool.noConfusion this

/-- Appending material that does not fully strip away on the right leaves
the stripped left part as a prefix. -/
theorem pyStrip_prefix_of_append (A Z : List Char)
    (hZ : Z.rdropWhile isStripChar ≠ []) : pyStrip A <+: pyStrip (A ++ Z) := by
  unfold pyStrip
  rw [List.dropWhile_append]
  by_cases hA : (A.dropWhile isStripChar).isEmpty
  · have hnil : A.dropWhile isStripChar = [] := by simpa [List.isEmpty_iff] using hA
    rw [if_pos hA, hnil, List.rdropWhile_nil]
    exact List.nil_prefix
  · rw [if_neg hA, rdropWhile_append_eq isStripChar (A.dropWhile isStripChar) Z,
      if_neg (by simpa [List.isEmpty_iff] using hZ)]
    exact ( List.rdropWhile_prefix _ _).trans ( List.prefix_append _ _)

/-- Left-strip of a string of the shape A ++ "_wout_" ++ B eats at most
into A and the first underscore: the result still ends in B. -/
theorem dropWhile_wout_append (A B : List Char) :
    ∃ X : List Char,
      (A ++ "_wout_".toList ++ B).dropWhile isStripChar = X ++ B := by
  rw [List.append_assoc, List.dropWhile_append]
  by_cases hA : (A.dropWhile isStripChar).isEmpty
  · refine ⟨"wout_".toList, ?_⟩
    rw [if_pos hA]
    rfl
  · refine ⟨A.dropWhile isStripChar ++ "_wout_".toList, ?_⟩
    rw [if_neg hA, List.append_assoc]

/-- The stripped min-text block survives as an infix of the stripped
combined name. -/
theorem pyStrip_infix_of_wout_append (A B : List Char) :
    pyStrip B <:+: pyStrip (A ++ "_wout_".toList ++ B) := by
  obtain ⟨X, hX⟩ := dropWhile_wout_append A B
  show pyStrip B <:+: ((A ++ "_wout_".toList ++ B).dropWhile isStripChar).rdropWhile isStripChar
  rw [hX, rdropWhile_append_eq isStripChar X B]
  by_cases hB : (B.rdropWhile isStripChar).isEmpty
  · have hBnil : B.rdropWhile isStripChar = [] := by simpa [List.isEmpty_iff] using hB
    have hall : ∀ x ∈ B, isStripChar x = true := List.rdropWhile_eq_nil_iff.mp hBnil
    have hDnil : B.dropWhile isStripChar = [] := List.dropWhile_eq_nil_iff.mpr hall
    show pyStrip B <:+: _
    unfold pyStrip
    rw [hDnil, List.rdropWhile_nil]
    exact List.nil_infix
  · rw [if_neg hB]
    by_cases hD : ((B.dropWhile isStripChar).rdropWhile isStripChar).isEmpty
    · have : (B.dropWhile isStripChar).rdropWhile isStripChar = [] := by
        simpa [List.isEmpty_iff] using hD
      show pyStrip B <:+: _
      unfold pyStrip
      rw [this]
      exact List.nil_infix
    · have hB2 : B = B.takeWhile isStripChar ++ B.dropWhile isStripChar :=
        (List.takeWhile_append_dropWhile isStripChar B).symm
      have hsplit : B.rdropWhile isStripChar
          = B.takeWhile isStripChar ++ (B.dropWhile isStripChar).rdropWhile isStripChar := by
        conv_lhs => rw [hB2]
        rw [rdropWhile_append_eq isStripChar _ _, if_neg hD]
      have hsuff : pyStrip B <:+ X ++ B.rdropWhile isStripChar := by
        unfold pyStrip
        rw [hsplit, ← List.append_assoc]
        exact List.suffix_append _ _
      exact hsuff.isInfix

/-- The head of a dropWhile result fails the predicate. -/
theorem head_dropWhile_false (p : Char → Bool) :
    ∀ (l : List Char) (c : Char), (l.dropWhile p).head? = some c → p c = false := by
  intro l
  induction l with
  | nil => intro c h; simp at h
  | cons a rest ih =>
    intro c h
    rw [List.dropWhile_cons] at h
    by_cases hp : p a
    · rw [if_pos hp] at h
      exact ih c h
    · rw [if_neg hp] at h
      simp only [List.head?_cons, Option.some.injEq] at h
      rw [← h]
      exact Bool.eq_false_iff.mpr hp

/-- The head of a non-empty prefix is the head of the whole list. -/
theorem head?_of_isPrefix {l₁ l₂ : List Char} {c : Char} (h : l₁ <+: l₂)
    (hc : l₁.head? = some c) : l₂.head? = some c := by
  obtain ⟨w, rfl⟩ := h
  cases l₁ with
  | nil => simp at hc
  | cons a t => simpa using hc

/-- The first character of a stripped name is not a strip character. -/
theorem pyStrip_head_not_strip (s : List Char) (c : Char)
    (h : (pyStrip s).head? = some c) : isStripChar c = false := by
  unfold pyStrip at h
  exact head_dropWhile_false isStripChar s c
    (head?_of_isPrefix ( List.rdropWhile_prefix isStripChar _) h)

/-- The last character of a stripped name is not a strip character. -/
theorem pyStrip_getLast_not_strip (s : List Char) (c : Char)
    (h : (pyStrip s).getLast? = some c) : isStripChar c = false := by
  unfold pyStrip at h
  have hne : (s.dropWhile isStripChar).rdropWhile isStripChar ≠ [] := by
    intro hnil
    rw [hnil] at h
    simp at h
  have hlast := List.rdropWhile_last_not (p := isStripChar)
    (l := s.dropWhile isStripChar) hne
  rw [List.getLast?_eq_getLast _ hne] at h
  have hgc : ((s.dropWhile isStripChar).rdropWhile isStripChar).getLast hne = c := by
    injection h
  rw [hgc] at hlast
  exact Bool.eq_false_iff.mpr hlast

/-- Claim C5 (amended): for a prompt and a non-empty min-text (of at most
255 characters) whose combined sanitized name fits the 255-character
bound, the output name contains the sanitized prompt token and the
sanitized negation token, contains no raw pipe, space or comma, is at most
255 characters long, neither starts nor ends in a hyphen or underscore,
and with no seed the on-disk filename is exactly the name plus the png
extension.  (Without the fit hypothesis the truncation can cut the
negation token away, see the counterexample.) -/
theorem output_path_sanitized {E : Type} (textEnc : List Char → E)
    (imgEnc : ImgInput → E) (avgEnc : E → E → E) (t m : List Char)
    (hm : m ≠ []) (hm255 : m.length ≤ 255)
    (hfit : (pyStrip (replace_pipeline (t ++ "_wout_".toList ++ m))).length ≤ 255) :
    (set_clip_encoding textEnc imgEnc avgEnc false [] none false none
        (some t) none none m).text_path
      = sanitize_name (t ++ "_wout_".toList ++ m) ∧
    (set_clip_encoding textEnc imgEnc avgEnc false [] none false none
        (some t) none none m).filename
      = "./".toList ++ sanitize_name (t ++ "_wout_".toList ++ m) ++ ".png".toList ∧
    '|' ∉ sanitize_name (t ++ "_wout_".toList ++ m) ∧
    ' ' ∉ sanitize_name (t ++ "_wout_".toList ++ m) ∧
    ',' ∉ sanitize_name (t ++ "_wout_".toList ++ m) ∧
    (sanitize_name (t ++ "_wout_".toList ++ m)).length ≤ 255 ∧
    create_text_path (some t) none none <:+: sanitize_name (t ++ "_wout_".toList ++ m) ∧
    create_text_path (some m) none none <:+: sanitize_name (t ++ "_wout_".toList ++ m) ∧
    (∀ c, (sanitize_name (t ++ "_wout_".toList ++ m)).head? = some c →
      isStripChar c = false) ∧
    (∀ c, (sanitize_name (t ++ "_wout_".toList ++ m)).getLast? = some c →
      isStripChar c = false) := by
  have hl : 0 < m.length := List.length_pos.mpr hm
  have hm' : m.take 255 = m := List.take_of_length_le hm255
  have hsan : sanitize_name (t ++ "_wout_".toList ++ m)
      = pyStrip (replace_pipeline (t ++ "_wout_".toList ++ m)) :=
    List.take_of_length_le hfit
  have hwout : replace_pipeline "_wout_".toList = "_wout_".toList := rfl
  have hfull : replace_pipeline (t ++ "_wout_".toList ++ m)
      = replace_pipeline t ++ "_wout_".toList ++ replace_pipeline m := by
    rw [replace_pipeline_append, replace_pipeline_append, hwout]
  have hpre : pyStrip (replace_pipeline t)
      <+: pyStrip (replace_pipeline (t ++ "_wout_".toList ++ m)) := by
    rw [hfull, List.append_assoc]
    exact pyStrip_prefix_of_append _ _
      (rdropWhile_ne_nil_of_mem (c := 'w')
        (List.mem_append_left _ (by decide)) (by decide))
  have hinf : pyStrip (replace_pipeline m)
      <:+: pyStrip (replace_pipeline (t ++ "_wout_".toList ++ m)) := by
    rw [hfull]
    exact pyStrip_infix_of_wout_append _ _
  have htokT : create_text_path (some t) none none = pyStrip (replace_pipeline t) := by
    show (pyStrip (replace_pipeline (t ++ []))).take 255 = _
    rw [List.append_nil]
    exact List.take_of_length_le (le_trans hpre.isInfix.length_le hfit)
  have htokM : create_text_path (some m) none none = pyStrip (replace_pipeline m) := by
    show (pyStrip (replace_pipeline (m ++ []))).take 255 = _
    rw [List.append_nil]
    exact List.take_of_length_le (le_trans hinf.length_le hfit)
  refine ⟨?_, ?_, ?_, ?_, ?_, ?_, ?_, ?_, ?_, ?_⟩
  · simp [set_clip_encoding, create_text_path, hl, hm']
  · simp [set_clip_encoding, create_text_path, seed_suffix, hl, hm']
  · intro h
    exact pipe_not_mem_replace_pipeline _
      (mem_replace_pipeline_of_mem_sanitize_name '|' _ h)
  · intro h
    exact space_not_mem_replace_pipeline _
      (mem_replace_pipeline_of_mem_sanitize_name ' ' _ h)
  · intro h
    exact comma_not_mem_replace_pipeline _
      (mem_replace_pipeline_of_mem_sanitize_name ',' _ h)
  · exact List.length_take_le 255 _
  · rw [htokT, hsan]
    exact hpre.isInfix
  · rw [htokM, hsan]
    exact hinf
  · intro c hc
    rw [hsan] at hc
    exact pyStrip_head_not_strip _ c hc
  · intro c hc
    rw [hsan] at hc
    exact pyStrip_getLast_not_strip _ c hc

/-- Witness for claim C5 at the example prompt and min-text of the spec. -/
theorem output_path_sanitized_witness :
    (set_clip_encoding (fun s : List Char => s) (fun _ : ImgInput => ([] : List Char))
        (fun a b => a ++ b) false [] none false none
        (some "a cat | a dog".toList) none none "blurry".toList).text_path
      = sanitize_name ("a cat | a dog".toList ++ "_wout_".toList ++ "blurry".toList) ∧
    (set_clip_encoding (fun s : List Char => s) (fun _ : ImgInput => ([] : List Char))
        (fun a b => a ++ b) false [] none false none
        (some "a cat | a dog".toList) none none "blurry".toList).filename
      = "./".toList
          ++ sanitize_name ("a cat | a dog".toList ++ "_wout_".toList ++ "blurry".toList)
          ++ ".png".toList ∧
    '|' ∉ sanitize_name ("a cat | a dog".toList ++ "_wout_".toList ++ "blurry".toList) ∧
    ' ' ∉ sanitize_name ("a cat | a dog".toList ++ "_wout_".toList ++ "blurry".toList) ∧
    ',' ∉ sanitize_name ("a cat | a dog".toList ++ "_wout_".toList ++ "blurry".toList) ∧
    (sanitize_name ("a cat | a dog".toList ++ "_wout_".toList ++ "blurry".toList)).length
        ≤ 255 ∧
    create_text_path (some "a cat | a dog".toList) none none
        <:+: sanitize_name ("a cat | a dog".toList ++ "_wout_".toList ++ "blurry".toList) ∧
    create_text_path (some "blurry".toList) none none
        <:+: sanitize_name ("a cat | a dog".toList ++ "_wout_".toList ++ "blurry".toList) ∧
    (∀ c, (sanitize_name ("a cat | a dog".toList ++ "_wout_".toList
        ++ "blurry".toList)).head? = some c → isStripChar c = false) ∧
    (∀ c, (sanitize_name ("a cat | a dog".toList ++ "_wout_".toList
        ++ "blurry".toList)).getLast? = some c → isStripChar c = false) :=
  output_path_sanitized (fun s : List Char => s) (fun _ : ImgInput => ([] : List Char))
    (fun a b => a ++ b) "a cat | a dog".toList "blurry".toList
    (by decide) (by decide) (by decide)

set_option maxRecDepth 20000 in
/-- Claim C5 is false as stated: for the 250-character prompt of a-s with
min-text "blurry", the 255-character truncation cuts the negation token
off, so the output name does not contain the sanitized negation token. -/
theorem output_path_truncation_counterexample :
    ¬ (create_text_path (some "blurry".toList) none none
        <:+: (set_clip_encoding (fun s : List Char => s)
            (fun _ : ImgInput => ([] : List Char)) (fun a b => a ++ b)
            false [] none false none
            (some (List.replicate 250 'a')) none none "blurry".toList).text_path) := by
  decide

/-- Claim C8: if the interrupt flag is set at some poll point before the
nominal number of steps is reached, the epoch and iteration loops stop
early (fewer than epochs*iterations steps run, whereas an uninterrupted
run executes all of them), the interrupted run is a prefix of the
uninterrupted one, and the checkpoints written before the interrupt are
exactly an initial segment of the uninterrupted checkpoint sequence: none
is removed or modified by the termination path, which merely stops
iterating, returning normally. -/
theorem interrupt_terminates_early (flag : ℕ → Bool) (epochs iters save_every t0 : ℕ)
    (hset : flag t0 = true) (hmid : t0 < epochs * iters) :
    (run_loop flag epochs iters).length < epochs * iters ∧
    run_loop flag epochs iters <+: run_loop (fun _ => false) epochs iters ∧
    checkpoints_of save_every (run_loop flag epochs iters)
        <+: checkpoints_of save_every (run_loop (fun _ => false) epochs iters) ∧
    (run_loop (fun _ => false) epochs iters).length = epochs * iters := by
  unfold run_loop checkpoints_of
  have hlen : (epoch_loop flag iters 0 0 epochs).length ≤ t0 := by
    by_contra hc
    push_neg at hc
    have hff := epoch_loop_flag_false flag iters epochs 0 0 t0 (Nat.zero_le t0) (by omega)
    rw [hset] at hff
    exact absurd hff (by decide)
  exact ⟨lt_of_le_of_lt hlen hmid,
    epoch_loop_isPrefix flag iters epochs 0 0,
    (epoch_loop_isPrefix flag iters epochs 0 0).filter _,
    epoch_loop_length_of_no_flag iters epochs 0 0⟩

/-- Witness for claim C8: the flag turns on at step 3 of a 2-epoch,
5-iteration run with checkpoints every 2 iterations. -/
theorem interrupt_terminates_early_witness :
    (run_loop (fun t => decide (3 ≤ t)) 2 5).length < 2 * 5 ∧
    run_loop (fun t => decide (3 ≤ t)) 2 5 <+: run_loop (fun _ => false) 2 5 ∧
    checkpoints_of 2 (run_loop (fun t => decide (3 ≤ t)) 2 5)
        <+: checkpoints_of 2 (run_loop (fun _ => false) 2 5) ∧
    (run_loop (fun _ => false) 2 5).length = 2 * 5 :=
  interrupt_terminates_early (fun t => decide (3 ≤ t)) 2 5 2 3 (by decide) (by decide)

end BigSleep
